import Mathlib

/-!
Verification of the dataset-archive schema validator and normalizer of
`api/src/controllers/database_controller.py`.

The Python functions `is_valid_image`, `validate_class_folder`,
`validate_zip_structure`, `validate_flat_zip_structure` and `upload_zip`
are embedded shallowly: exceptions become `Except` values with one typed
constructor per distinct `HTTPException` raise site, filesystem trees
become explicit inductive data, and the side effects of the flat-mode
normalizer (directory creation, renames, moves) are recorded in the
returned value.  Python `set` objects are modelled as lists used only
through membership, and `dict` objects as insertion-ordered association
lists, matching CPython dict semantics.
-/

/-! ## Character classes and small string utilities -/

/-- Characters accepted by the regex class `[A-Z0-9]` (class token characters). -/
def isTokChar (c : Char) : Bool :=
  (decide ('A' ≤ c) && decide (c ≤ 'Z')) || (decide ('0' ≤ c) && decide (c ≤ '9'))

/-- Characters accepted by the regex class `[\s\-_]`: the ASCII whitespace
characters matched by Python `\s` together with hyphen and underscore.
(Python `\s` additionally matches some non-ASCII whitespace; no filename in
any statement below contains non-ASCII characters.) -/
def isSepChar (c : Char) : Bool :=
  c == ' ' || c == '\t' || c == '\n' || c == '\r' ||
    decide (c.val = 11) || decide (c.val = 12) || c == '-' || c == '_'

/-- Characters accepted by the regex class `[0-9]`. -/
def isDigChar (c : Char) : Bool :=
  decide ('0' ≤ c) && decide (c ≤ '9')

/-- Splits a character list around its last dot: `some (before, after)`,
or `none` when no dot occurs. -/
def lastDotSplit : List Char → Option (List Char × List Char)
  | [] => none
  | c :: rest =>
    match lastDotSplit rest with
    | some (a, b) => some (c :: a, b)
    | none => if c = '.' then some ([], rest) else none

/-- Model of Python `os.path.splitext` on a path without directory
separators: the extension starts at the last dot, except that a basename
consisting only of leading dots before that position has no extension. -/
def splitext (s : String) : String × String :=
  match lastDotSplit s.data with
  | none => (s, "")
  | some (pre, post) =>
    if pre.all (fun c => c = '.') then (s, "") else (⟨pre⟩, ⟨'.' :: post⟩)

/-- Stem (filename without extension) as computed by `os.path.splitext`. -/
def stemOf (s : String) : String := (splitext s).1

/-- Extension (with leading dot) as computed by `os.path.splitext`. -/
def extOf (s : String) : String := (splitext s).2

/-- ASCII whitespace stripped by Python `int()` before parsing. -/
def isPyWs (c : Char) : Bool :=
  c == ' ' || c == '\t' || c == '\n' || c == '\r' ||
    decide (c.val = 11) || decide (c.val = 12)

/-- Numeric value of a digit string. -/
def digitsVal (cs : List Char) : Nat :=
  cs.foldl (fun a c => 10 * a + (c.toNat - '0'.toNat)) 0

/-- Model of Python `int(s)`: strip surrounding whitespace, an optional
sign, then a non-empty digit run; anything else raises `ValueError`,
modelled as `none`.  (Python additionally allows underscore digit grouping
and non-ASCII digits; no input below uses either.) -/
def pyInt (s : String) : Option Int :=
  let cs := ((s.data.dropWhile isPyWs).reverse.dropWhile isPyWs).reverse
  match cs with
  | '+' :: r => if !r.isEmpty && r.all isDigChar then some (digitsVal r) else none
  | '-' :: r => if !r.isEmpty && r.all isDigChar then some (-(digitsVal r : Int)) else none
  | r => if !r.isEmpty && r.all isDigChar then some (digitsVal r) else none

/-- Model of `os.path.basename`: the part of a path after the last slash. -/
def baseNameOf (p : String) : String :=
  ⟨(p.data.reverse.takeWhile (fun c => c ≠ '/')).reverse⟩

/-! ## The two filename regexes

`pattern_with_class = ^[A-Z0-9]{1,6}[\s\-_]*[\s\-_]+[\s\-_]*[0-9]{2,4}$`
and `pattern_without_class = ^[0-9]{2,4}$` are compiled at module level in
the source.  Matching is embedded by enumerating every decomposition of the
input into the concatenated pieces demanded by the regex; each piece is a
literal transcription of one regex factor. -/

/-- All ways of splitting a list into two consecutive parts. -/
def splits2 {α : Type} : List α → List (List α × List α)
  | [] => [([], [])]
  | a :: as => ([], a :: as) :: (splits2 as).map (fun p => (a :: p.1, p.2))

/-- All ways of splitting a list into three consecutive parts. -/
def splits3 {α : Type} (l : List α) : List (List α × List α × List α) :=
  (splits2 l).flatMap (fun p => (splits2 p.2).map (fun q => (p.1, q.1, q.2)))

/-- The factor `[A-Z0-9]{1,6}`. -/
def tokRun (cs : List Char) : Bool :=
  cs.all isTokChar && decide (1 ≤ cs.length) && decide (cs.length ≤ 6)

/-- The factor `[\s\-_]*`. -/
def sepRun (cs : List Char) : Bool := cs.all isSepChar

/-- The factor `[0-9]{2,4}`. -/
def digRun (cs : List Char) : Bool :=
  cs.all isDigChar && decide (2 ≤ cs.length) && decide (cs.length ≤ 4)

/-- The compiled source regex
`^[A-Z0-9]{1,6}[\s\-_]*[\s\-_]+[\s\-_]*[0-9]{2,4}$` as a full-string
matcher: separator middle split into a `*` run, a `+` run and a `*` run. -/
def pattern_with_class (s : String) : Bool :=
  (splits3 s.data).any fun t =>
    tokRun t.1 &&
      ((splits3 t.2.1).any fun u =>
        sepRun u.1 && (sepRun u.2.1 && !u.2.1.isEmpty) && sepRun u.2.2) &&
      digRun t.2.2

/-- The regex stated by the specification,
`^[A-Z0-9]{1,6}[\s\-_]+[0-9]{2,4}$`, as a full-string matcher. -/
def spec_pattern_with_class (s : String) : Bool :=
  (splits3 s.data).any fun t =>
    tokRun t.1 && (sepRun t.2.1 && !t.2.1.isEmpty) && digRun t.2.2

/-- The source regex `^[0-9]{2,4}$` as a full-string matcher. -/
def pattern_without_class (s : String) : Bool := digRun s.data

/-! ## Typed validation failures

One constructor per distinct `HTTPException(400, ...)` raise site of the
validators, carrying exactly the data interpolated into the message. -/

/-- Typed validation failures of the archive validators. -/
inductive VError where
  /-- A class folder contains no files. -/
  | emptyClassFolder (folder : String)
  /-- A file in a class folder has an extension outside the accepted set. -/
  | invalidImageExtension (file : String) (folder : String) (accepted : List String)
  /-- Expected indices are missing from a class folder (sorted list). -/
  | missingIndices (nums : List Nat) (folder : String)
  /-- A folder holds the wrong number of files. -/
  | fileCountMismatch (folder : String) (found : Nat) (expected : Nat)
  /-- There is not exactly one top-level DB folder. -/
  | invalidRootCount
  /-- The DB folder contains no class folders. -/
  | noClassFolders
  /-- A class folder contains subfolders. -/
  | unexpectedSubfolder (folder : String)
  /-- The embedded class token of a file disagrees with its folder. -/
  | classTokenMismatch (file : String) (folderClass : String) (parsedClass : String)
  /-- A file inside a class folder follows neither filename pattern. -/
  | badFormatInClass (file : String) (folder : String)
  /-- A loose file does not follow the class-qualified pattern. -/
  | badFormatLoose (file : String)
  /-- The number of class folders differs from the expected number. -/
  | classCountMismatch (found : Nat) (expected : Nat)
deriving DecidableEq, Repr

/-! ## `is_valid_image` and `validate_class_folder` -/

/-- The module-level constant `VALID_EXTENSIONS` (a Python set, modelled as
a list used through membership). -/
def VALID_EXTENSIONS : List String := [".bmp", ".jpg", ".jpeg", ".png", ".gif"]

/-- `is_valid_image`: the extension of the filename is in the fixed set. -/
def is_valid_image (file_name : String) : Bool :=
  VALID_EXTENSIONS.contains (splitext file_name).2

/-- One valid-image step of the `validate_class_folder` file loop: parse
the stem with `int()`; on success and inside `[1, expected]` record the
index, otherwise (out of range, or `ValueError` caught by the
`try`/`except`) leave the accumulator unchanged. -/
def foundStep (expected : Nat) (f : String) (acc : List Nat) : List Nat :=
  match pyInt (splitext f).1 with
  | some n => if 1 ≤ n ∧ n ≤ (expected : Int) then acc ++ [n.toNat] else acc
  | none => acc

/-- The file loop of `validate_class_folder`: raises on the first file that
is not a valid image, otherwise accumulates every stem that parses as an
integer inside `[1, expected]` (the Python `found_files` set, modelled as a
list used through membership). -/
def collectFound (class_folder : String) (expected : Nat) :
    List String → List Nat → Except VError (List Nat)
  | [], acc => .ok acc
  | f :: rest, acc =>
    if is_valid_image f then
      collectFound class_folder expected rest (foundStep expected f acc)
    else
      .error (.invalidImageExtension f class_folder VALID_EXTENSIONS)

/-- `validate_class_folder`: empty check, per-file extension check with
index collection, missing-index check (the filter of an ascending range is
ascending, so it equals the `sorted` list Python reports), then the total
file-count check. -/
def validate_class_folder (class_folder : String) (files : List String)
    (expected_num_files_per_class : Nat) : Except VError Unit :=
  if files.isEmpty then .error (.emptyClassFolder class_folder)
  else
    match collectFound class_folder expected_num_files_per_class files [] with
    | .error e => .error e
    | .ok found =>
      let missing := (List.range' 1 expected_num_files_per_class).filter
        (fun n => !found.contains n)
      if !missing.isEmpty then .error (.missingIndices missing class_folder)
      else if files.length ≠ expected_num_files_per_class then
        .error (.fileCountMismatch class_folder files.length
          expected_num_files_per_class)
      else .ok ()

instance {ε α : Type} [DecidableEq ε] [DecidableEq α] : DecidableEq (Except ε α)
  | .error a, .error b =>
    if h : a = b then .isTrue (by rw [h])
    else .isFalse (fun hc => by cases hc; exact h rfl)
  | .error _, .ok _ => .isFalse (fun hc => by cases hc)
  | .ok _, .error _ => .isFalse (fun hc => by cases hc)
  | .ok a, .ok b =>
    if h : a = b then .isTrue (by rw [h])
    else .isFalse (fun hc => by cases hc; exact h rfl)

/-! ## Claims C3, C5, C8: class-folder validation -/

/-- C3: for a class folder named "A" listing exactly 1.png, 2.png, 4.png
with expectedFilesPerClass = 4, validation fails with MissingIndices [3];
since the listing also has the wrong total count (3 instead of 4), the
error being MissingIndices shows the missing-index failure is raised
before the total-file-count check. -/
theorem c3_missing_index_detection :
    validate_class_folder "A" ["1.png", "2.png", "4.png"] 4 =
      .error (.missingIndices [3] "A") := by decide

lemma collectFound_cons (cf : String) (e : Nat) (f : String)
    (rest : List String) (acc : List Nat) :
    collectFound cf e (f :: rest) acc =
      if is_valid_image f then collectFound cf e rest (foundStep e f acc)
      else .error (.invalidImageExtension f cf VALID_EXTENSIONS) := rfl

lemma mem_foundStep (e : Nat) (f : String) (acc : List Nat) (x : Nat)
    (hx : x ∈ acc) : x ∈ foundStep e f acc := by
  unfold foundStep
  cases pyInt (splitext f).1 with
  | some n =>
    dsimp only
    by_cases hr : 1 ≤ n ∧ n ≤ (e : Int)
    · rw [if_pos hr]; exact List.mem_append_left _ hx
    · rwa [if_neg hr]
  | none => exact hx

lemma self_mem_foundStep (e : Nat) (f : String) (acc : List Nat) (i : Nat)
    (hpi : pyInt (splitext f).1 = some (i : Int)) (h1 : 1 ≤ i) (h2 : i ≤ e) :
    i ∈ foundStep e f acc := by
  unfold foundStep
  rw [hpi]
  dsimp only
  have hr : 1 ≤ (i : Int) ∧ (i : Int) ≤ (e : Int) :=
    ⟨by exact_mod_cast h1, by exact_mod_cast h2⟩
  rw [if_pos hr]
  simp

lemma collectFound_mono (cf : String) (e : Nat) (files : List String)
    (acc found : List Nat) (h : collectFound cf e files acc = .ok found) :
    ∀ x ∈ acc, x ∈ found := by
  induction files generalizing acc with
  | nil =>
    cases h
    exact fun x hx => hx
  | cons f rest ih =>
    rw [collectFound_cons] at h
    by_cases hv : is_valid_image f
    · rw [if_pos hv] at h
      exact fun x hx => ih _ h x (mem_foundStep e f acc x hx)
    · rw [if_neg hv] at h
      simp at h

lemma collectFound_covers (cf : String) (e : Nat) (files : List String)
    (acc found : List Nat) (h : collectFound cf e files acc = .ok found)
    (f : String) (hf : f ∈ files) (i : Nat)
    (hpi : pyInt (splitext f).1 = some (i : Int)) (h1 : 1 ≤ i) (h2 : i ≤ e) :
    i ∈ found := by
  induction files generalizing acc with
  | nil => cases hf
  | cons g rest ih =>
    rw [collectFound_cons] at h
    by_cases hv : is_valid_image g
    · rw [if_pos hv] at h
      rcases List.mem_cons.mp hf with rfl | hfr
      · exact collectFound_mono cf e rest _ found h i
          (self_mem_foundStep e f acc i hpi h1 h2)
      · exact ih _ h hfr
    · rw [if_neg hv] at h
      simp at h

lemma collectFound_ok_of_valid (cf : String) (e : Nat) (files : List String)
    (hv : ∀ f ∈ files, is_valid_image f = true) (acc : List Nat) :
    ∃ found, collectFound cf e files acc = .ok found := by
  induction files generalizing acc with
  | nil => exact ⟨acc, rfl⟩
  | cons f rest ih =>
    have hvf := hv f (by simp)
    have hvr : ∀ g ∈ rest, is_valid_image g = true :=
      fun g hg => hv g (by simp [hg])
    rw [collectFound_cons, if_pos hvf]
    exact ih hvr _

/-- C5: whenever every file of a class folder carries a valid image
extension and the parsed indices cover all of 1..expected, validation still
fails with the file-count mismatch error as soon as the total file count
differs from the expected count (duplicate indices or unparseable extra
stems are exactly the inputs satisfying these hypotheses). -/
theorem c5_count_checked_despite_full_coverage (cf : String)
    (files : List String) (e : Nat)
    (hval : ∀ f ∈ files, is_valid_image f = true)
    (hcov : ∀ i : Nat, 1 ≤ i → i ≤ e →
      ∃ f ∈ files, pyInt (splitext f).1 = some (i : Int))
    (hlen : files.length ≠ e) :
    validate_class_folder cf files e =
      .error (.fileCountMismatch cf files.length e) := by
  have hne : ¬ files.isEmpty = true := by
    cases hf : files with
    | nil =>
      cases e with
      | zero => rw [hf] at hlen; simp at hlen
      | succ k =>
        obtain ⟨f, hfm, -⟩ := hcov 1 le_rfl (by omega)
        rw [hf] at hfm
        cases hfm
    | cons a l => simp
  obtain ⟨found, hcf⟩ := collectFound_ok_of_valid cf e files hval []
  have hmiss : (List.range' 1 e).filter (fun n => !found.contains n) = [] := by
    rw [List.filter_eq_nil_iff]
    intro n hn
    have hrange := List.mem_range'_1.mp hn
    obtain ⟨f, hfm, hpf⟩ := hcov n hrange.1 (by omega)
    have hmem : n ∈ found :=
      collectFound_covers cf e files [] found hcf f hfm n hpf hrange.1 (by omega)
    simp [hmem]
  unfold validate_class_folder
  rw [if_neg hne, hcf]
  dsimp only
  rw [hmiss]
  simp [hlen]

/-- Witness for C5 at a concrete input: folder "A" with a duplicate index
under two extensions and expected count 1. -/
theorem c5_count_checked_despite_full_coverage_witness :
    validate_class_folder "A" ["1.png", "1.jpg"] 1 =
      .error (.fileCountMismatch "A" 2 1) :=
  c5_count_checked_despite_full_coverage "A" ["1.png", "1.jpg"] 1
    (by decide)
    (by
      intro i h1 h2
      have : i = 1 := by omega
      subst this
      exact ⟨"1.png", by decide, by decide⟩)
    (by decide)

lemma collectFound_first_invalid (cf : String) (e : Nat) (files : List String)
    (acc : List Nat) (badf : String)
    (h : files.find? (fun f => !is_valid_image f) = some badf) :
    collectFound cf e files acc =
      .error (.invalidImageExtension badf cf VALID_EXTENSIONS) := by
  induction files generalizing acc with
  | nil => cases h
  | cons f rest ih =>
    by_cases hv : is_valid_image f
    · have hstep : rest.find? (fun f => !is_valid_image f) = some badf := by
        rwa [List.find?_cons_of_neg _ (by simp [hv])] at h
      rw [collectFound_cons, if_pos hv]
      exact ih _ hstep
    · have hbad : badf = f := by
        rw [List.find?_cons_of_pos _ (by simp [hv])] at h
        cases h
        rfl
      subst hbad
      rw [collectFound_cons, if_neg hv]

/-- C8: a class folder containing at least one file with an extension
outside the fixed accepted set fails with the invalid-image-extension
error naming the (first such) offending file and the accepted extension
set; the set is the module constant, not a per-call parameter. -/
theorem c8_extension_rejection (cf : String) (files : List String) (e : Nat)
    (badf : String)
    (h : files.find? (fun f => !is_valid_image f) = some badf) :
    validate_class_folder cf files e =
      .error (.invalidImageExtension badf cf VALID_EXTENSIONS) := by
  have hne : ¬ files.isEmpty = true := by
    cases files with
    | nil => cases h
    | cons a l => simp
  unfold validate_class_folder
  rw [if_neg hne, collectFound_first_invalid cf e files [] badf h]

/-- Witness for C8: a folder containing 1.txt fails naming 1.txt and the
accepted extension set. -/
theorem c8_extension_rejection_witness :
    validate_class_folder "A" ["1.txt"] 1 =
      .error (.invalidImageExtension "1.txt" "A" VALID_EXTENSIONS) :=
  c8_extension_rejection "A" ["1.txt"] 1 "1.txt" (by decide)

/-! ## Claim C6: the compiled regex versus the regex of the specification -/

lemma mem_splits2 {α : Type} (l : List α) :
    ∀ a b : List α, (a, b) ∈ splits2 l ↔ a ++ b = l := by
  induction l with
  | nil =>
    intro a b
    constructor
    · intro h
      have h0 := List.mem_singleton.mp h
      cases h0
      rfl
    · intro h
      rcases List.append_eq_nil.mp h with ⟨rfl, rfl⟩
      exact List.mem_singleton.mpr rfl
  | cons x xs ih =>
    intro a b
    constructor
    · intro h
      rcases List.mem_cons.mp h with h0 | h1
      · cases h0
        rfl
      · rcases List.mem_map.mp h1 with ⟨p, hp, hpe⟩
        cases hpe
        have hpp := (ih p.1 p.2).mp hp
        simp [hpp]
    · intro h
      cases a with
      | nil =>
        apply List.mem_cons.mpr
        left
        simp only [List.nil_append] at h
        rw [h]
      | cons a0 as =>
        apply List.mem_cons.mpr
        right
        simp only [List.cons_append] at h
        injection h with h0 h1
        subst h0
        exact List.mem_map.mpr ⟨(as, b), (ih as b).mpr h1, rfl⟩

lemma mem_splits3 {α : Type} (l a b c : List α) :
    (a, b, c) ∈ splits3 l ↔ a ++ (b ++ c) = l := by
  unfold splits3
  rw [List.mem_flatMap]
  constructor
  · rintro ⟨p, hp, hmem⟩
    rcases List.mem_map.mp hmem with ⟨q, hq, hqe⟩
    injection hqe with he1 he2
    injection he2 with he2 he3
    subst he1; subst he2; subst he3
    have h1 := (mem_splits2 l p.1 p.2).mp hp
    have h2 := (mem_splits2 p.2 q.1 q.2).mp hq
    rw [← h2] at h1
    exact h1
  · intro h
    refine ⟨(a, b ++ c), (mem_splits2 l a (b ++ c)).mpr h, ?_⟩
    exact List.mem_map.mpr ⟨(b, c), (mem_splits2 (b ++ c) b c).mpr rfl, rfl⟩

lemma pattern_with_class_iff (s : String) :
    pattern_with_class s = true ↔
      ∃ t v d : List Char, t ++ (v ++ d) = s.data ∧ tokRun t = true ∧
        sepRun v = true ∧ v ≠ [] ∧ digRun d = true := by
  unfold pattern_with_class
  rw [List.any_eq_true]
  constructor
  · rintro ⟨⟨t, m, d⟩, hmem, hpred⟩
    simp only [Bool.and_eq_true] at hpred
    obtain ⟨⟨htok, hmid⟩, hdig⟩ := hpred
    rw [List.any_eq_true] at hmid
    obtain ⟨⟨u, v, w⟩, hmmem, hmp⟩ := hmid
    simp only [Bool.and_eq_true] at hmp
    obtain ⟨⟨hu, hv, hvne⟩, hw⟩ := hmp
    have hm : u ++ (v ++ w) = m := (mem_splits3 m u v w).mp hmmem
    refine ⟨t, m, d, (mem_splits3 s.data t m d).mp hmem, htok, ?_, ?_, hdig⟩
    · rw [← hm]
      simp only [sepRun, List.all_append, Bool.and_eq_true]
      exact ⟨hu, (by simpa [sepRun] using hv), hw⟩
    · rw [← hm]
      intro hc
      rcases List.append_eq_nil.mp hc with ⟨-, hvw⟩
      rcases List.append_eq_nil.mp hvw with ⟨hv0, -⟩
      rw [hv0] at hvne
      simp at hvne
  · rintro ⟨t, v, d, hsplit, htok, hsep, hne, hdig⟩
    refine ⟨(t, v, d), (mem_splits3 s.data t v d).mpr hsplit, ?_⟩
    simp only [Bool.and_eq_true]
    refine ⟨⟨htok, ?_⟩, hdig⟩
    rw [List.any_eq_true]
    refine ⟨([], v, []), (mem_splits3 v [] v []).mpr (by simp), ?_⟩
    have hvm : ∀ x ∈ v, isSepChar x = true := by
      simpa [sepRun, List.all_eq_true] using hsep
    simp only [sepRun, List.all_eq_true, hne, Bool.and_eq_true]
    refine ⟨⟨by simp, hvm, by simp [hne]⟩, by simp⟩

lemma spec_pattern_with_class_iff (s : String) :
    spec_pattern_with_class s = true ↔
      ∃ t v d : List Char, t ++ (v ++ d) = s.data ∧ tokRun t = true ∧
        sepRun v = true ∧ v ≠ [] ∧ digRun d = true := by
  unfold spec_pattern_with_class
  rw [List.any_eq_true]
  constructor
  · rintro ⟨⟨t, v, d⟩, hmem, hpred⟩
    simp only [Bool.and_eq_true] at hpred
    obtain ⟨⟨htok, hv, hvne⟩, hdig⟩ := hpred
    exact ⟨t, v, d, (mem_splits3 s.data t v d).mp hmem, htok, hv,
      (by simpa using hvne), hdig⟩
  · rintro ⟨t, v, d, hsplit, htok, hsep, hne, hdig⟩
    refine ⟨(t, v, d), (mem_splits3 s.data t v d).mpr hsplit, ?_⟩
    simp [htok, hsep, hne, hdig]

/-- C6: the compiled source pattern
`^[A-Z0-9]{1,6}[\s\-_]*[\s\-_]+[\s\-_]*[0-9]{2,4}$` accepts exactly the
same stems as the pattern `^[A-Z0-9]{1,6}[\s\-_]+[0-9]{2,4}$` stated by the
specification: a `*`-run, a non-empty `+`-run and a `*`-run over one
character class concatenate to exactly the non-empty runs of that class. -/
theorem c6_pattern_equivalence (s : String) :
    pattern_with_class s = spec_pattern_with_class s := by
  have h1 := pattern_with_class_iff s
  have h2 := spec_pattern_with_class_iff s
  by_cases h : spec_pattern_with_class s = true
  · rw [h, h1.mpr (h2.mp h)]
  · have hn : ¬ pattern_with_class s = true := fun hc => h (h2.mpr (h1.mp hc))
    rw [Bool.not_eq_true] at h hn
    rw [h, hn]

/-! ## The flat-mode normalizer `validate_flat_zip_structure`

The extracted working tree is modelled two directory levels deep, which is
as deep as the walk of the source ever descends without raising: `D1` is a
folder directly under the working root (relative path with no slash), `D2`
a folder below a `D1` (relative path with one slash — the only folders the
source treats as class folders); a `D2` only records whether it has
subfolders, because the walk raises before descending further.  `os.walk`
enumerates folders in listing order, modelled by list order.  All
mutations (renames inside class folders, moves of loose files) are
recorded in the output instead of performed on a filesystem. -/

/-- A folder two levels below the flat working root. -/
structure D2 where
  name : String
  files : List String
  hasSubs : Bool
deriving DecidableEq, Repr

/-- A folder directly below the flat working root. -/
structure D1 where
  name : String
  files : List String
  subs : List D2
deriving DecidableEq, Repr

/-- The flat working tree: files and folders under the working root. -/
structure FlatTree where
  rootFiles : List String
  dirs : List D1
deriving DecidableEq, Repr

/-- Result of a successful flat validation: the `file_count_per_class`
dict (insertion-ordered association list), the renames performed inside
class folders as (folder, oldName, newName), and the loose-file moves as
(classFolder, newFileName). -/
structure FlatOutput where
  counts : List (String × Nat)
  renames : List (String × String × String)
  moves : List (String × String)
deriving DecidableEq, Repr

/-- First-occurrence split of a character list at a separator. -/
def splitAtFirst (sep : Char) : List Char → Option (List Char × List Char)
  | [] => none
  | c :: rest =>
    if c = sep then some ([], rest)
    else
      match splitAtFirst sep rest with
      | some (a, b) => some (c :: a, b)
      | none => none

/-- Python `stem.partition(' ' if ' ' in stem else '_')` (lines 143 and
176), projected to the class and index components the source keeps: when
the chosen separator does not occur, `partition` returns the whole string
as first component and empty rest. -/
def parseClassPart (stem : String) : String × String :=
  let sep := if stem.data.contains ' ' then ' ' else '_'
  match splitAtFirst sep stem.data with
  | some (a, b) => (⟨a⟩, ⟨b⟩)
  | none => (stem, "")

/-- Lookup in the `file_count_per_class` dict. -/
def dictGet? : List (String × Nat) → String → Option Nat
  | [], _ => none
  | p :: rest, k => if p.1 = k then some p.2 else dictGet? rest k

/-- `file_count_per_class[k] = v` on a CPython dict: updates in place,
appends a fresh key at the end. -/
def dictSet : List (String × Nat) → String → Nat → List (String × Nat)
  | [], k, v => [(k, v)]
  | p :: rest, k, v => if p.1 = k then (k, v) :: rest else p :: dictSet rest k v

/-- Lines 188-190: default the key to 0 then add one. -/
def dictBump : List (String × Nat) → String → List (String × Nat)
  | [], k => [(k, 1)]
  | p :: rest, k => if p.1 = k then (p.1, p.2 + 1) :: rest else p :: dictBump rest k

/-- Drop the files whose stem equals the working-root path string (the
`continue` at lines 105, 117, 137 and 168). -/
def skipFilter (tempDir : String) (fs : List String) : List String :=
  fs.filter (fun f => decide ((splitext f).1 ≠ tempDir))

/-- Processing of one entry of `files_outside_classes` (lines 163-190):
skip, pattern check, partition into class and index, create the class
folder if needed and move the file (recorded), bump the class count. -/
def processLoose (tempDir : String)
    (st : List (String × Nat) × List (String × String)) (f : String) :
    Except VError (List (String × Nat) × List (String × String)) :=
  let stem := (splitext f).1
  let ext := (splitext f).2
  if stem = tempDir then .ok st
  else if !pattern_with_class stem then .error (.badFormatLoose f)
  else
    let cls := (parseClassPart stem).1
    let part := (parseClassPart stem).2
    .ok (dictBump st.1 cls, st.2 ++ [(cls, part ++ ext)])

/-- The `files_outside_classes` loop. -/
def processLooseList (tempDir : String)
    (st : List (String × Nat) × List (String × String)) :
    List String → Except VError (List (String × Nat) × List (String × String))
  | [] => .ok st
  | f :: rest =>
    match processLoose tempDir st f with
    | .error e => .error e
    | .ok st2 => processLooseList tempDir st2 rest

/-- The per-file loop of the class-folder branch (lines 133-156): skip,
class-qualified files must carry the folder's class token and are renamed
to the bare index form, bare files pass unchanged, anything else raises. -/
def processClassFiles (tempDir cls : String) :
    List String → List (String × String × String) →
      Except VError (List (String × String × String))
  | [], acc => .ok acc
  | f :: rest, acc =>
    let stem := (splitext f).1
    let ext := (splitext f).2
    if stem = tempDir then processClassFiles tempDir cls rest acc
    else if pattern_with_class stem then
      let cls2 := (parseClassPart stem).1
      let part := (parseClassPart stem).2
      if cls2 ≠ cls then .error (.classTokenMismatch f cls cls2)
      else processClassFiles tempDir cls rest (acc ++ [(cls, f, part ++ ext)])
    else if pattern_without_class stem then processClassFiles tempDir cls rest acc
    else .error (.badFormatInClass f cls)

/-- The class-folder branch of the walk (lines 125-159): no subfolders,
exact file count, per-file checks with renames, then
`file_count_per_class[class_name] = len(files)`. -/
def processClassFolder (tempDir : String) (expF : Nat)
    (st : List (String × Nat) × List (String × String × String)) (d : D2) :
    Except VError (List (String × Nat) × List (String × String × String)) :=
  if d.hasSubs then .error (.unexpectedSubfolder d.name)
  else if d.files.length ≠ expF then
    .error (.fileCountMismatch d.name d.files.length expF)
  else
    match processClassFiles tempDir d.name d.files st.2 with
    | .error e => .error e
    | .ok r => .ok (dictSet st.1 d.name d.files.length, r)

/-- All folders at walk depth two, in walk order. -/
def processClassFolders (tempDir : String) (expF : Nat) :
    List D2 → List (String × Nat) × List (String × String × String) →
      Except VError (List (String × Nat) × List (String × String × String))
  | [], st => .ok st
  | d :: rest, st =>
    match processClassFolder tempDir expF st d with
    | .error e => .error e
    | .ok st2 => processClassFolders tempDir expF rest st2

/-- All files anywhere below a depth-one folder, as collected by the inner
`os.walk` of lines 100-109, with the stem skip of line 105. -/
def allFilesUnder (tempDir : String) (d : D1) : List String :=
  skipFilter tempDir (d.files ++ d.subs.flatMap (fun s => s.files))

/-- The walk over depth-one folders.  A folder whose name equals
`os.path.basename(temp_dir)` re-enters the top-level branch (line 95): a
subfolder named like the working root is drained into the loose list and
removed from the walk (lines 97-110), the folder's own files join the
loose list (lines 113-122), and its remaining subfolders are walked as
class folders.  Any other depth-one folder matches no branch of the
source: its files are ignored, but its subfolders are still walked as
class folders.  (The line 97 membership test compares the full working
path against entry names; it is modelled verbatim even though in
production the path contains a slash and never equals an entry name.) -/
def walkDirs (tempDir baseName : String) (expF : Nat) :
    List D1 →
      List (String × Nat) × List (String × String × String) × List String →
      Except VError
        (List (String × Nat) × List (String × String × String) × List String)
  | [], st => .ok st
  | d :: rest, (c, r, lo) =>
    if d.name = baseName then
      match d.subs.find? (fun s => s.name == tempDir) with
      | some s =>
        let lo2 := (lo ++ skipFilter tempDir s.files) ++ skipFilter tempDir d.files
        match processClassFolders tempDir expF
            (d.subs.eraseP (fun s2 => s2.name == tempDir)) (c, r) with
        | .error e => .error e
        | .ok (c2, r2) => walkDirs tempDir baseName expF rest (c2, r2, lo2)
      | none =>
        let lo2 := lo ++ skipFilter tempDir d.files
        match processClassFolders tempDir expF d.subs (c, r) with
        | .error e => .error e
        | .ok (c2, r2) => walkDirs tempDir baseName expF rest (c2, r2, lo2)
    else
      match processClassFolders tempDir expF d.subs (c, r) with
      | .error e => .error e
      | .ok (c2, r2) => walkDirs tempDir baseName expF rest (c2, r2, lo)

/-- `validate_flat_zip_structure(temp_dir, ...)`: root visit (collecting
`files_outside_classes` and draining a root folder named like the working
path), the walk over the folder levels, the loose-file pass, and the two
final checks (class count, then per-class counts in dict order, raising at
the first offender). -/
def validate_flat_zip_structure (tempDir : String) (t : FlatTree)
    (expC expF : Nat) : Except VError FlatOutput :=
  let baseName := baseNameOf tempDir
  let dirs1 :=
    if (t.dirs.find? (fun d => d.name == tempDir)).isSome then
      t.dirs.eraseP (fun d => d.name == tempDir)
    else t.dirs
  let loose0 :=
    match t.dirs.find? (fun d => d.name == tempDir) with
    | some d => allFilesUnder tempDir d
    | none => []
  let loose1 := loose0 ++ skipFilter tempDir t.rootFiles
  match walkDirs tempDir baseName expF dirs1 ([], [], loose1) with
  | .error e => .error e
  | .ok (c, r, lo) =>
    match processLooseList tempDir (c, []) lo with
    | .error e => .error e
    | .ok (c2, mv) =>
      if c2.length ≠ expC then .error (.classCountMismatch c2.length expC)
      else
        match c2.find? (fun p => decide (p.2 ≠ expF)) with
        | some p => .error (.fileCountMismatch p.1 p.2 expF)
        | none => .ok ⟨c2, r, mv⟩

/-! ## Claim C4: pre-grouped folders in flat mode -/

/-- C4 (failing input): in flat mode the source only treats folders at
walk depth two as class folders (`rel_path.count` of one), so a
class-qualified file inside an actual one-level-deep folder named "C" is
never compared against "C": the run below succeeds without any
ClassTokenMismatch although "C" contains "B_001.png", while the same
filename as a loose file does create class "B" with no prior class "B". -/
theorem c4_depth_one_folder_ignored :
    validate_flat_zip_structure "/t/z"
        ⟨["A_01.png", "A_02.png"], [⟨"C", ["B_001.png"], []⟩]⟩ 1 2 =
      .ok ⟨[("A", 2)], [], [("A", "01.png"), ("A", "02.png")]⟩ ∧
    validate_flat_zip_structure "/t/z" ⟨["B_001.png", "B_002.png"], []⟩ 1 2 =
      .ok ⟨[("B", 2)], [], [("B", "001.png"), ("B", "002.png")]⟩ := by
  constructor <;> decide

/-! ## Claim C2: loose-file parsing, separators and renaming -/

/-- C2 (counterexample): the stem "AB-01" matches the class-qualified
pattern with a hyphen separator, but `partition` splits on space if a
space occurs, else on underscore; with neither present the whole stem
becomes the class part and the index part is empty, so the loose file
"AB-01.png" is moved into a class folder named "AB-01" as ".png" — not
into "AB" as "01.png" as the claim states for every admitted separator. -/
theorem c2_hyphen_separator_cex :
    pattern_with_class "AB-01" = true ∧
    validate_flat_zip_structure "/t/z" ⟨["AB-01.png"], []⟩ 1 1 =
      .ok ⟨[("AB-01", 1)], [], [("AB-01", ".png")]⟩ := by
  constructor <;> decide

lemma splitAtFirst_append (sep : Char) (a b : List Char) (ha : sep ∉ a) :
    splitAtFirst sep (a ++ sep :: b) = some (a, b) := by
  induction a with
  | nil => simp [splitAtFirst]
  | cons x xs ih =>
    have hx : ¬ x = sep := fun h => ha (by rw [h]; exact List.mem_cons_self _ _)
    have hxs : sep ∉ xs := fun h => ha (List.mem_cons_of_mem _ h)
    rw [List.cons_append]
    unfold splitAtFirst
    rw [if_neg hx, ih hxs]

lemma parseClassPart_single_sep (tok idx : List Char) (sep : Char)
    (hsp : sep = ' ' ∨ sep = '_')
    (htok : ∀ c ∈ tok, isTokChar c = true)
    (hidx : ∀ c ∈ idx, isDigChar c = true) :
    parseClassPart ⟨tok ++ sep :: idx⟩ = (⟨tok⟩, ⟨idx⟩) := by
  have hsp_tok : ' ' ∉ tok := fun h => by
    have := htok _ h
    simp [isTokChar] at this
  have hus_tok : '_' ∉ tok := fun h => by
    have := htok _ h
    simp [isTokChar] at this
  have hsp_idx : ' ' ∉ idx := fun h => by
    have := hidx _ h
    simp [isDigChar] at this
  unfold parseClassPart
  rcases hsp with rfl | rfl
  · have hc : (tok ++ ' ' :: idx).contains ' ' = true := by
      simp [List.contains_eq_any_beq]
    show (match splitAtFirst (if (tok ++ ' ' :: idx).contains ' ' then ' ' else '_')
        (tok ++ ' ' :: idx) with
      | some (a, b) => ((⟨a⟩ : String), (⟨b⟩ : String))
      | none => ((⟨tok ++ ' ' :: idx⟩ : String), "")) = ((⟨tok⟩ : String), ⟨idx⟩)
    rw [hc]
    simp only [if_true, splitAtFirst_append ' ' tok idx hsp_tok]
  · have hc : (tok ++ '_' :: idx).contains ' ' = false := by
      simp only [List.contains_eq_any_beq, List.any_eq_false]
      intro c hc
      rcases List.mem_append.mp hc with h | h
      · have := htok _ h
        intro hb
        rw [← eq_of_beq hb] at this
        simp [isTokChar] at this
      · rcases List.mem_cons.mp h with rfl | h
        · decide
        · have := hidx _ h
          intro hb
          rw [← eq_of_beq hb] at this
          simp [isDigChar] at this
    show (match splitAtFirst (if (tok ++ '_' :: idx).contains ' ' then ' ' else '_')
        (tok ++ '_' :: idx) with
      | some (a, b) => ((⟨a⟩ : String), (⟨b⟩ : String))
      | none => ((⟨tok ++ '_' :: idx⟩ : String), "")) = ((⟨tok⟩ : String), ⟨idx⟩)
    rw [hc]
    simp [splitAtFirst_append '_' tok idx hus_tok]

/-- C2 (amended): for a loose file whose stem is a class token followed by
a single separator that is a space or an underscore and a 2-4 digit index,
the normalizer parses the stem into that class and index, creates or
reuses the class folder (the count bump models `os.makedirs` with
`exist_ok`), and moves the file there renamed to `<index><ext>`.  For
hyphen separators or longer separator runs the split instead happens at
the first space if any, else the first underscore (counterexample above). -/
theorem c2_single_space_or_underscore_sep_moves (td : String)
    (counts : List (String × Nat)) (mvs : List (String × String))
    (f : String) (tok idx : List Char) (sep : Char) (ext : String)
    (hsp : sep = ' ' ∨ sep = '_')
    (hsplit : splitext f = (⟨tok ++ sep :: idx⟩, ext))
    (htok : ∀ c ∈ tok, isTokChar c = true)
    (h1 : 1 ≤ tok.length) (h6 : tok.length ≤ 6)
    (hidx : ∀ c ∈ idx, isDigChar c = true)
    (h2 : 2 ≤ idx.length) (h4 : idx.length ≤ 4)
    (hnb : (⟨tok ++ sep :: idx⟩ : String) ≠ td) :
    processLoose td (counts, mvs) f =
      .ok (dictBump counts ⟨tok⟩, mvs ++ [(⟨tok⟩, (⟨idx⟩ : String) ++ ext)]) := by
  have hm : pattern_with_class ⟨tok ++ sep :: idx⟩ = true := by
    rw [pattern_with_class_iff]
    refine ⟨tok, [sep], idx, by simp, ?_, ?_, by simp, ?_⟩
    · simp only [tokRun, Bool.and_eq_true, List.all_eq_true, decide_eq_true_eq]
      exact ⟨⟨htok, h1⟩, h6⟩
    · rcases hsp with rfl | rfl <;> simp [sepRun, isSepChar]
    · simp only [digRun, Bool.and_eq_true, List.all_eq_true, decide_eq_true_eq]
      exact ⟨⟨hidx, h2⟩, h4⟩
  unfold processLoose
  rw [hsplit]
  dsimp only
  rw [if_neg hnb, hm]
  simp only [Bool.not_true, Bool.false_eq_true, if_false,
    parseClassPart_single_sep tok idx sep hsp htok hidx]

/-- Witness for the amended C2 at the concrete loose file "AB_01.png". -/
theorem c2_single_space_or_underscore_sep_moves_witness :
    processLoose "/t/z" ([], []) "AB_01.png" =
      .ok ([("AB", 1)], [("AB", "01.png")]) :=
  c2_single_space_or_underscore_sep_moves "/t/z" [] [] "AB_01.png"
    ['A', 'B'] ['0', '1'] '_' ".png" (Or.inr rfl) (by decide) (by decide)
    (by decide) (by decide) (by decide) (by decide) (by decide) (by decide)

/-! ## Claim C10: duplicate canonical targets -/

/-- C10: the final per-class counts count processed source files: the two
distinct loose files "A 01.png" and "A_01.png" both parse to class "A"
with index "01", both bump the count of "A" to 2 so validation succeeds
with expectedFilesPerClass = 2, yet both moves target the same canonical
name "01.png" in folder "A" (the second `os.rename` overwrites the first),
so the canonical class folder ends with 1 file, fewer than expected. -/
theorem c10_duplicate_index_overwrite :
    validate_flat_zip_structure "/t/z" ⟨["A 01.png", "A_01.png"], []⟩ 1 2 =
      .ok ⟨[("A", 2)], [], [("A", "01.png"), ("A", "01.png")]⟩ ∧
    ([("A", "01.png"), ("A", "01.png")] : List (String × String)).dedup.length
      = 1 ∧ 1 < 2 := by
  refine ⟨by decide, by decide, by decide⟩

/-! ## Claim C7: order independence of flat-mode normalization -/

/-- C7 (counterexample): two orderings of the same flat archive, every
filename matching the class-qualified pattern, produce different results:
the final per-class count check walks the dict in insertion order and
names the first offending class, which depends on the input ordering.  The
verdict (a typed failure naming an offending path) therefore differs. -/
theorem c7_order_dependent_error_cex :
    (["A_01.png", "B_01.png"] : List String).Perm ["B_01.png", "A_01.png"] ∧
    (∀ f ∈ (["A_01.png", "B_01.png"] : List String),
      pattern_with_class (splitext f).1 = true) ∧
    validate_flat_zip_structure "/t/z" ⟨["A_01.png", "B_01.png"], []⟩ 2 2 =
      .error (.fileCountMismatch "A" 1 2) ∧
    validate_flat_zip_structure "/t/z" ⟨["B_01.png", "A_01.png"], []⟩ 2 2 =
      .error (.fileCountMismatch "B" 1 2) := by
  refine ⟨by decide, by decide, by decide, by decide⟩

/-- The class a loose file is grouped into. -/
def classOfFile (f : String) : String := (parseClassPart (splitext f).1).1

/-- The (classFolder, newFileName) move target of a loose file. -/
def moveOf (f : String) : String × String :=
  ((parseClassPart (splitext f).1).1,
    (parseClassPart (splitext f).1).2 ++ (splitext f).2)

/-- The keys of the count dict, in insertion order. -/
def dictKeys (d : List (String × Nat)) : List String := d.map Prod.fst

lemma dictGet?_bump (d : List (String × Nat)) (k k' : String) :
    dictGet? (dictBump d k) k' =
      if k' = k then some ((dictGet? d k').getD 0 + 1) else dictGet? d k' := by
  induction d with
  | nil =>
    by_cases h : k' = k
    · subst h
      simp [dictBump, dictGet?]
    · have h2 : ¬ k = k' := fun hc => h hc.symm
      simp [dictBump, dictGet?, h, h2]
  | cons p rest ih =>
    by_cases hp : p.1 = k
    · simp only [dictBump, if_pos hp, dictGet?]
      by_cases h : p.1 = k'
      · have hk : k' = k := by rw [← h, hp]
        rw [if_pos h, if_pos hk, if_pos h]
        simp
      · have hk : ¬ k' = k := fun hc => h (by rw [hp, ← hc])
        rw [if_neg h, if_neg hk, if_neg h]
    · simp only [dictBump, if_neg hp, dictGet?]
      by_cases h : p.1 = k'
      · have hk : ¬ k' = k := fun hc => hp (by rw [h, hc])
        rw [if_pos h, if_neg hk, if_pos h]
      · rw [if_neg h, ih, if_neg h]

lemma dictGet?_none_iff (d : List (String × Nat)) (k : String) :
    dictGet? d k = none ↔ k ∉ dictKeys d := by
  induction d with
  | nil => simp [dictGet?, dictKeys]
  | cons p rest ih =>
    by_cases h : p.1 = k
    · simp only [dictGet?, if_pos h, dictKeys, List.map_cons, List.mem_cons]
      constructor
      · intro hc
        cases hc
      · intro hc
        exact absurd (Or.inl h.symm) hc
    · simp only [dictGet?, if_neg h, dictKeys, List.map_cons, List.mem_cons]
      rw [ih]
      constructor
      · intro hc hor
        rcases hor with hor | hor
        · exact h hor.symm
        · exact hc hor
      · intro hc hm
        exact hc (Or.inr hm)

lemma dictKeys_bump (d : List (String × Nat)) (k : String) :
    dictKeys (dictBump d k) =
      if k ∈ dictKeys d then dictKeys d else dictKeys d ++ [k] := by
  induction d with
  | nil => simp [dictBump, dictKeys]
  | cons p rest ih =>
    by_cases hp : p.1 = k
    · rw [if_pos (by simp [dictKeys, hp.symm])]
      simp [dictBump, hp, dictKeys]
    · have hne : ¬ k = p.1 := fun hc => hp hc.symm
      simp only [dictBump, if_neg hp, dictKeys, List.map_cons] at ih ⊢
      rw [ih]
      by_cases hm : k ∈ List.map Prod.fst rest
      · rw [if_pos hm, if_pos (by simp [List.mem_cons, hm])]
      · rw [if_neg hm, if_neg (by simp [List.mem_cons, hne, hm])]
        simp

lemma dictKeys_bump_nodup (d : List (String × Nat)) (k : String)
    (h : (dictKeys d).Nodup) : (dictKeys (dictBump d k)).Nodup := by
  rw [dictKeys_bump]
  by_cases hm : k ∈ dictKeys d
  · rwa [if_pos hm]
  · rw [if_neg hm]
    refine List.Nodup.append h (List.nodup_singleton k) ?_
    intro a ha hb
    rw [List.mem_singleton.mp hb] at ha
    exact hm ha

lemma mem_dict_iff_get (d : List (String × Nat))
    (h : (dictKeys d).Nodup) (p : String × Nat) :
    p ∈ d ↔ dictGet? d p.1 = some p.2 := by
  induction d with
  | nil => simp [dictGet?]
  | cons q rest ih =>
    have hq := List.nodup_cons.mp h
    by_cases hk : q.1 = p.1
    · simp only [List.mem_cons, dictGet?, if_pos hk, Option.some.injEq]
      constructor
      · intro hc
        rcases hc with rfl | hc
        · rfl
        · exfalso
          exact hq.1 (by rw [hk]; exact List.mem_map.mpr ⟨p, hc, rfl⟩)
      · intro hc
        left
        cases p
        cases q
        simp only at hk hc
        rw [hk, hc]
    · simp only [List.mem_cons, dictGet?, if_neg hk]
      rw [← ih hq.2]
      constructor
      · intro hc
        rcases hc with rfl | hc
        · exact absurd rfl hk
        · exact hc
      · exact Or.inr

lemma dict_entries_perm (d1 d2 : List (String × Nat))
    (h1 : (dictKeys d1).Nodup) (h2 : (dictKeys d2).Nodup)
    (hg : ∀ k, dictGet? d1 k = dictGet? d2 k) : d1.Perm d2 := by
  have hd1 : d1.Nodup := List.Nodup.of_map _ h1
  have hd2 : d2.Nodup := List.Nodup.of_map _ h2
  rw [List.perm_ext_iff_of_nodup hd1 hd2]
  intro p
  rw [mem_dict_iff_get d1 h1 p, mem_dict_iff_get d2 h2 p, hg]

lemma skipFilter_cons_skip (td : String) (f : String) (fs : List String)
    (h : (splitext f).1 = td) :
    skipFilter td (f :: fs) = skipFilter td fs := by
  simp [skipFilter, h]

lemma skipFilter_cons_keep (td : String) (f : String) (fs : List String)
    (h : ¬ (splitext f).1 = td) :
    skipFilter td (f :: fs) = f :: skipFilter td fs := by
  simp [skipFilter, h]

lemma skipFilter_idem (td : String) (fs : List String) :
    skipFilter td (skipFilter td fs) = skipFilter td fs := by
  simp [skipFilter, List.filter_filter]

lemma processLooseList_spec (td : String) (fs : List String)
    (c0 : List (String × Nat)) (m0 : List (String × String))
    (hm : ∀ f ∈ fs, (splitext f).1 ≠ td →
      pattern_with_class (splitext f).1 = true) :
    ∃ c1 m1, processLooseList td (c0, m0) fs = .ok (c1, m1) ∧
      m1 = m0 ++ (skipFilter td fs).map moveOf ∧
      (∀ k, dictGet? c1 k =
        if (dictGet? c0 k).isSome ∨
            0 < (skipFilter td fs).countP (fun f => classOfFile f == k) then
          some ((dictGet? c0 k).getD 0 +
            (skipFilter td fs).countP (fun f => classOfFile f == k))
        else none) ∧
      ((dictKeys c0).Nodup → (dictKeys c1).Nodup) := by
  induction fs generalizing c0 m0 with
  | nil =>
    refine ⟨c0, m0, rfl, by simp [skipFilter], ?_, fun h => h⟩
    intro k
    cases hk : dictGet? c0 k with
    | some v => simp [skipFilter, hk]
    | none => simp [skipFilter, hk]
  | cons f fs ih =>
    have hmr : ∀ g ∈ fs, (splitext g).1 ≠ td →
        pattern_with_class (splitext g).1 = true :=
      fun g hg => hm g (List.mem_cons_of_mem _ hg)
    by_cases hskip : (splitext f).1 = td
    · have hstep : processLoose td (c0, m0) f = .ok (c0, m0) := by
        unfold processLoose
        rw [if_pos hskip]
      obtain ⟨c1, m1, hr, hmv, hg, hn⟩ := ih c0 m0 hmr
      refine ⟨c1, m1, ?_, ?_, ?_, hn⟩
      · unfold processLooseList
        rw [hstep]
        exact hr
      · rwa [skipFilter_cons_skip td f fs hskip]
      · rwa [skipFilter_cons_skip td f fs hskip]
    · have hpat := hm f (List.mem_cons_self f fs) hskip
      have hstep : processLoose td (c0, m0) f =
          .ok (dictBump c0 (classOfFile f), m0 ++ [moveOf f]) := by
        unfold processLoose
        rw [if_neg hskip, hpat]
        simp only [Bool.not_true, Bool.false_eq_true, if_false]
        rfl
      obtain ⟨c1, m1, hr, hmv, hg, hn⟩ :=
        ih (dictBump c0 (classOfFile f)) (m0 ++ [moveOf f]) hmr
      refine ⟨c1, m1, ?_, ?_, ?_, ?_⟩
      · unfold processLooseList
        rw [hstep]
        exact hr
      · rw [hmv, skipFilter_cons_keep td f fs hskip, List.map_cons,
          List.append_assoc, List.singleton_append]
      · intro k
        rw [hg k, dictGet?_bump c0 (classOfFile f) k,
          skipFilter_cons_keep td f fs hskip, List.countP_cons]
        by_cases hk : k = classOfFile f
        · have hbeq : (classOfFile f == k) = true := by
            rw [hk]
            exact beq_self_eq_true _
          rw [if_pos hk, hbeq]
          cases hc0 : dictGet? c0 k with
          | some v => simp [hc0, Nat.add_assoc, Nat.add_comm 1]
          | none => simp [hc0, Nat.add_comm 1]
        · have hbeq : (classOfFile f == k) = false := by
            rw [beq_eq_false_iff_ne]
            exact fun hc => hk hc.symm
          rw [if_neg hk, hbeq]
          simp
      · intro hnod
        exact hn (dictKeys_bump_nodup c0 (classOfFile f) hnod)

/-- Success test of a validation result. -/
def isOkE {ε α : Type} : Except ε α → Bool
  | .ok _ => true
  | .error _ => false

lemma flat_loose_only (td : String) (fs : List String) (expC expF : Nat) :
    validate_flat_zip_structure td ⟨fs, []⟩ expC expF =
      match processLooseList td ([], []) (skipFilter td fs) with
      | .error e => .error e
      | .ok (c2, mv) =>
        if c2.length ≠ expC then .error (.classCountMismatch c2.length expC)
        else
          match c2.find? (fun p => decide (p.2 ≠ expF)) with
          | some p => .error (.fileCountMismatch p.1 p.2 expF)
          | none => .ok ⟨c2, [], mv⟩ := rfl

/-- C7 (amended): over flat archives of loose files in which every
filename matches the class-qualified pattern, the normalizer is
order-independent up to the data the claim names, except for the identity
of the offending class in a failing verdict: permuted inputs yield the
same success/failure outcome, and on success the same per-class counts
(dict lookup), the same class-count dict up to permutation (hence the same
class set), the same moves up to permutation (hence the same canonical
tree), and identical rename lists. -/
theorem c7_flat_order_independence (td : String) (fs1 fs2 : List String)
    (expC expF : Nat) (hp : fs1.Perm fs2)
    (hm : ∀ f ∈ fs1, pattern_with_class (splitext f).1 = true) :
    (isOkE (validate_flat_zip_structure td ⟨fs1, []⟩ expC expF) =
      isOkE (validate_flat_zip_structure td ⟨fs2, []⟩ expC expF)) ∧
    (∀ o1 o2, validate_flat_zip_structure td ⟨fs1, []⟩ expC expF = .ok o1 →
      validate_flat_zip_structure td ⟨fs2, []⟩ expC expF = .ok o2 →
      (∀ k, dictGet? o1.counts k = dictGet? o2.counts k) ∧
      o1.counts.Perm o2.counts ∧ o1.moves.Perm o2.moves ∧
      o1.renames = o2.renames) := by
  have hperm : (skipFilter td fs1).Perm (skipFilter td fs2) := hp.filter _
  have hm1 : ∀ f ∈ skipFilter td fs1, (splitext f).1 ≠ td →
      pattern_with_class (splitext f).1 = true :=
    fun f hf _ => hm f (List.mem_of_mem_filter hf)
  have hm2 : ∀ f ∈ skipFilter td fs2, (splitext f).1 ≠ td →
      pattern_with_class (splitext f).1 = true :=
    fun f hf _ => hm f (hp.symm.subset (List.mem_of_mem_filter hf))
  obtain ⟨c1, m1, hr1, hmv1, hg1, hn1⟩ :=
    processLooseList_spec td (skipFilter td fs1) [] [] hm1
  obtain ⟨c2, m2, hr2, hmv2, hg2, hn2⟩ :=
    processLooseList_spec td (skipFilter td fs2) [] [] hm2
  rw [skipFilter_idem] at hmv1 hg1
  rw [skipFilter_idem] at hmv2 hg2
  have hgeq : ∀ k, dictGet? c1 k = dictGet? c2 k := by
    intro k
    rw [hg1 k, hg2 k,
      List.Perm.countP_eq (fun f => classOfFile f == k) hperm]
  have hnod1 : (dictKeys c1).Nodup := hn1 (by simp [dictKeys])
  have hnod2 : (dictKeys c2).Nodup := hn2 (by simp [dictKeys])
  have hpc : c1.Perm c2 := dict_entries_perm c1 c2 hnod1 hnod2 hgeq
  have hlen : c1.length = c2.length := hpc.length_eq
  have hfind : (c1.find? (fun p => decide (p.2 ≠ expF))).isSome =
      (c2.find? (fun p => decide (p.2 ≠ expF))).isSome := by
    by_cases h : ∃ p ∈ c1, p.2 ≠ expF
    · obtain ⟨p, hpm, hpe⟩ := h
      have i1 : (c1.find? (fun p => decide (p.2 ≠ expF))).isSome = true :=
        List.find?_isSome.mpr ⟨p, hpm, by simp [hpe]⟩
      have i2 : (c2.find? (fun p => decide (p.2 ≠ expF))).isSome = true :=
        List.find?_isSome.mpr ⟨p, hpc.subset hpm, by simp [hpe]⟩
      rw [i1, i2]
    · have i1 : ¬ (c1.find? (fun p => decide (p.2 ≠ expF))).isSome = true :=
        fun hc => by
          obtain ⟨p, hpm, hpe⟩ := List.find?_isSome.mp hc
          exact h ⟨p, hpm, by simpa using hpe⟩
      have i2 : ¬ (c2.find? (fun p => decide (p.2 ≠ expF))).isSome = true :=
        fun hc => by
          obtain ⟨p, hpm, hpe⟩ := List.find?_isSome.mp hc
          exact h ⟨p, hpc.symm.subset hpm, by simpa using hpe⟩
      rw [Bool.not_eq_true] at i1 i2
      rw [i1, i2]
  rw [flat_loose_only td fs1 expC expF, flat_loose_only td fs2 expC expF,
    hr1, hr2]
  dsimp only
  by_cases hc : c1.length ≠ expC
  · rw [if_pos hc, if_pos (by rw [← hlen]; exact hc)]
    refine ⟨rfl, ?_⟩
    intro o1 o2 h1 h2
    cases h1
  · rw [if_neg hc, if_neg (by rw [← hlen]; exact hc)]
    cases hf1 : c1.find? (fun p => decide (p.2 ≠ expF)) with
    | some p =>
      have h2s : (c2.find? (fun p => decide (p.2 ≠ expF))).isSome = true := by
        rw [← hfind, hf1]
        rfl
      obtain ⟨q, hq⟩ := Option.isSome_iff_exists.mp h2s
      rw [hq]
      refine ⟨rfl, ?_⟩
      intro o1 o2 h1 h2
      cases h1
    | none =>
      have h2n : c2.find? (fun p => decide (p.2 ≠ expF)) = none := by
        have := hfind
        rw [hf1] at this
        exact Option.not_isSome_iff_eq_none.mp (by rw [← this]; decide)
      rw [h2n]
      refine ⟨rfl, ?_⟩
      intro o1 o2 h1 h2
      cases h1
      cases h2
      refine ⟨hgeq, hpc, ?_, rfl⟩
      rw [hmv1, hmv2]
      simpa using hperm.map moveOf

/-- Witness for the amended C7 at a concrete permuted pair of archives. -/
theorem c7_flat_order_independence_witness :
    (isOkE (validate_flat_zip_structure "/t/z"
        ⟨["A_01.png", "A_02.png"], []⟩ 1 2) =
      isOkE (validate_flat_zip_structure "/t/z"
        ⟨["A_02.png", "A_01.png"], []⟩ 1 2)) ∧
    (∀ o1 o2, validate_flat_zip_structure "/t/z"
        ⟨["A_01.png", "A_02.png"], []⟩ 1 2 = .ok o1 →
      validate_flat_zip_structure "/t/z"
        ⟨["A_02.png", "A_01.png"], []⟩ 1 2 = .ok o2 →
      (∀ k, dictGet? o1.counts k = dictGet? o2.counts k) ∧
      o1.counts.Perm o2.counts ∧ o1.moves.Perm o2.moves ∧
      o1.renames = o2.renames) :=
  c7_flat_order_independence "/t/z" ["A_01.png", "A_02.png"]
    ["A_02.png", "A_01.png"] 1 2 (by decide) (by decide)

/-! ## The structured validator `validate_zip_structure` -/

/-- The class-folder visits of the structured walk (relative paths with
one slash): subfolder check, then `validate_class_folder` on the folder's
full path, in walk order. -/
def checkClassFolders (tempDir dbName : String) (expF : Nat) :
    List D2 → Except VError Unit
  | [] => .ok ()
  | d :: rest =>
    if d.hasSubs then
      .error (.unexpectedSubfolder (tempDir ++ "/" ++ dbName ++ "/" ++ d.name))
    else
      match validate_class_folder (tempDir ++ "/" ++ dbName ++ "/" ++ d.name)
          d.files expF with
      | .error e => .error e
      | .ok _ => checkClassFolders tempDir dbName expF rest

/-- `validate_zip_structure`: exactly one top-level DB folder, which must
contain class folders; each class folder is validated in walk order; the
number of class folders is checked last. -/
def validate_zip_structure (tempDir : String) (t : FlatTree)
    (expC expF : Nat) : Except VError Unit :=
  match t.dirs with
  | [db] =>
    if db.subs.isEmpty then .error .noClassFolders
    else
      match checkClassFolders tempDir db.name expF db.subs with
      | .error e => .error e
      | .ok _ =>
        if db.subs.length ≠ expC then
          .error (.classCountMismatch db.subs.length expC)
        else .ok ()
  | _ => .error .invalidRootCount

/-! ## The orchestrator `upload_zip`

The request-level effects the claims speak about are made observable in
the result: the list of object names passed to `put_object` in order, and
acquire/release counters for the staging temporary directory (the
`with tempfile.TemporaryDirectory()` block).  The bucket check and the
object-store failures are the two external collaborators, modelled as
boolean inputs; archive extraction is external and trusted, so the
extracted tree is an input. -/

/-- Errors surfaced by `upload_zip`: the two pre-checks, the line 236
shape rejection, a typed validation failure propagated from a validator,
and an object-store failure during the upload walk. -/
inductive UpErr where
  | notZip
  | bucketMissing (bucket : String)
  | badShape
  | validation (e : VError)
  | uploadFailed (objectName : String)
deriving DecidableEq, Repr

/-- One request to `upload_zip` with the state of its collaborators. -/
structure UploadArgs where
  bucketName : String
  bucketExists : Bool
  fileName : String
  tempDir : String
  tree : FlatTree
  expectedNumClasses : Nat
  expectedNumFilesPerClass : Nat
  s3fail : String → Bool

/-- Observable outcome of one request. -/
structure UploadOutcome where
  verdict : Except UpErr Unit
  puts : List String
  acquired : Nat
  released : Nat

/-- Python `str.endswith`. -/
def endsWithStr (suffix s : String) : Bool := suffix.data.isSuffixOf s.data

/-- Object names walked and uploaded after a successful structured
validation: every file below a depth-one folder, keyed by its path
relative to the staging root (files directly at the root are skipped by
`root != temp_dir`). -/
def structuredObjects (t : FlatTree) : List String :=
  t.dirs.flatMap (fun d1 =>
    d1.files.map (fun f => d1.name ++ "/" ++ f) ++
      d1.subs.flatMap (fun d2 =>
        d2.files.map (fun f => d1.name ++ "/" ++ d2.name ++ "/" ++ f)))

/-- Object names walked and uploaded after a successful flat validation:
the working folder keeps the files the normalizer skipped, plus the class
folders holding the moved files, one object per canonical name surviving
the rename collisions; any other depth-one folder was left untouched. -/
def flatUploadObjects (t : FlatTree) (zipBase flatTmp : String)
    (out : FlatOutput) : List String :=
  t.dirs.flatMap (fun d1 =>
    if d1.name = zipBase then
      (d1.files.filter (fun f => decide ((splitext f).1 = flatTmp))).map
          (fun f => d1.name ++ "/" ++ f) ++
        (out.moves.map (fun pr => d1.name ++ "/" ++ pr.1 ++ "/" ++ pr.2)).dedup
    else
      d1.files.map (fun f => d1.name ++ "/" ++ f) ++
        d1.subs.flatMap (fun d2 =>
          d2.files.map (fun f => d1.name ++ "/" ++ d2.name ++ "/" ++ f)))

/-- Lines 220-236: locate the directory named like the zip, choose
structured mode when it contains subdirectories and flat mode otherwise,
propagate the validation verdict, and on success determine the objects the
upload walk will store. -/
def uploadBody (a : UploadArgs) : Except UpErr (List String) :=
  let zipBase := (splitext a.fileName).1
  match a.tree.dirs.find? (fun d => d.name == zipBase) with
  | none => .error .badShape
  | some d =>
    if d.subs.isEmpty then
      match validate_flat_zip_structure (a.tempDir ++ "/" ++ zipBase)
          ⟨d.files, []⟩ a.expectedNumClasses a.expectedNumFilesPerClass with
      | .error e => .error (.validation e)
      | .ok out =>
        .ok (flatUploadObjects a.tree zipBase (a.tempDir ++ "/" ++ zipBase) out)
    else
      match validate_zip_structure a.tempDir a.tree
          a.expectedNumClasses a.expectedNumFilesPerClass with
      | .error e => .error (.validation e)
      | .ok _ => .ok (structuredObjects a.tree)

/-- `upload_zip`: the `.zip` suffix check and the bucket check run before
the staging directory is acquired; everything else runs inside the
`with` block, whose exit releases the staging directory on success and on
every raised exception alike; the upload walk calls `put_object` per
object until the first store failure. -/
def upload_zip (a : UploadArgs) : UploadOutcome :=
  if endsWithStr ".zip" a.fileName = false then ⟨.error .notZip, [], 0, 0⟩
  else if a.bucketExists = false then
    ⟨.error (.bucketMissing a.bucketName), [], 0, 0⟩
  else
    match uploadBody a with
    | .error e => ⟨.error e, [], 1, 1⟩
    | .ok objs =>
      match objs.dropWhile (fun o => !a.s3fail o) with
      | [] => ⟨.ok (), objs, 1, 1⟩
      | bad :: _ =>
        ⟨.error (.uploadFailed bad), objs.takeWhile (fun o => !a.s3fail o), 1, 1⟩

/-! ## Claims C1 and C9: the orchestrator -/

/-- C1: whenever a request ends with a typed validation failure, the list
of `put_object` calls made for that request is empty — the upload walk is
only reached after both validators returned success, and the only error
raised past that point is the store failure, not a validation failure. -/
theorem c1_no_writes_after_validation_failure (a : UploadArgs) (e : VError)
    (h : (upload_zip a).verdict = .error (.validation e)) :
    (upload_zip a).puts = [] := by
  unfold upload_zip at h ⊢
  by_cases h1 : endsWithStr ".zip" a.fileName = false
  · rw [if_pos h1] at h
    simp at h
  · rw [if_neg h1] at h ⊢
    by_cases h2 : a.bucketExists = false
    · rw [if_pos h2] at h
      simp at h
    · rw [if_neg h2] at h ⊢
      cases hub : uploadBody a with
      | error e2 => rfl
      | ok objs =>
        rw [hub] at h
        dsimp only at h ⊢
        cases hdw : objs.dropWhile (fun o => !a.s3fail o) with
        | nil =>
          rw [hdw] at h
          simp at h
        | cons bad rest =>
          rw [hdw] at h
          simp at h

/-- Witness for C1: a structured archive with two top-level folders fails
validation with InvalidRootCount and performs zero object-store writes. -/
theorem c1_no_writes_after_validation_failure_witness :
    (upload_zip ⟨"b", true, "d.zip", "/t",
        ⟨[], [⟨"d", [], [⟨"K", [], false⟩]⟩, ⟨"e", [], []⟩]⟩, 1, 1,
        fun _ => false⟩).verdict = .error (.validation .invalidRootCount) ∧
    (upload_zip ⟨"b", true, "d.zip", "/t",
        ⟨[], [⟨"d", [], [⟨"K", [], false⟩]⟩, ⟨"e", [], []⟩]⟩, 1, 1,
        fun _ => false⟩).puts = [] :=
  ⟨by decide,
    c1_no_writes_after_validation_failure _ .invalidRootCount (by decide)⟩

/-- C9: on every execution path of `upload_zip` the number of staging
releases equals the number of staging acquisitions: the two pre-checks
fail before acquisition (0 = 0), and inside the `with` block every exit —
success, typed validation failure, shape rejection or store failure —
passes through the block exit that releases the directory (1 = 1). -/
theorem c9_staging_released_on_every_path (a : UploadArgs) :
    (upload_zip a).released = (upload_zip a).acquired := by
  unfold upload_zip
  by_cases h1 : endsWithStr ".zip" a.fileName = false
  · rw [if_pos h1]
  · rw [if_neg h1]
    by_cases h2 : a.bucketExists = false
    · rw [if_pos h2]
    · rw [if_neg h2]
      cases uploadBody a with
      | error e => rfl
      | ok objs =>
        dsimp only
        cases objs.dropWhile (fun o => !a.s3fail o) with
        | nil => rfl
        | cons bad rest => rfl
